import Mathlib

/-!
Verification of the orchestration core of the instagram-niche-analyzer
repository against its natural-language specification.

The development shallowly embeds the relevant TypeScript modules:

* `src/lib/queue/aiAnalysisBuffer.ts` — the Redis-backed analysis buffer
  (`addToBuffer`, `flushBuffer`, `flushBufferForJob`, and the `SET NX`
  drain lock), modelled as a small transition system over buffer states,
  with the two `await` halves of `flushBufferForJob` (the `LRANGE`
  snapshot and the `DEL`/`RPUSH` remainder replacement) exposed as
  separate atomic steps, because `addToBuffer` performs its `RPUSH`
  without taking the drain lock and can interleave between them.
* `src/lib/queue/worker.ts` — the crawl worker's per-unit counter
  updates (`$inc` of `processedProfiles` / `failedProfiles` /
  `totalProfiles`) and `checkAndCompleteJob`, modelled as a transition
  system over job-counter states plus a pure function for the
  completion check.
* the scraper session pool (`acquireSessionLock`,
  `getScraperForSession`, `releaseScraperForSession` and the periodic
  idle sweep), modelled as a per-key transition system and, for the
  busy-retry loop, as a fuel-indexed evaluator over an environment of
  observed pool states.
* `src/lib/queue/authWorker.ts` — the pending-2FA registry, its cleanup
  timer, and `process2FAJob`, as pure functions on an auth-flow state.
* the child-unit expansion of `createScrapeWorker` (followers before
  following, dedup of `following` against already-collected child jobs).
* `src/app/api/scrape/route.ts` — the crawl-job creation endpoint.

Machine integers do not occur: every counter in the source is a small
JavaScript number used as a mathematical integer, so `Nat` is used
directly.
-/

namespace InstaNiche

/-! ## Analysis buffer (`src/lib/queue/aiAnalysisBuffer.ts`)

The buffer is the Redis list `ai-analysis:buffer`.  A stored element is a
string; `addToBuffer` stores `JSON.stringify` of a well-formed
`BufferedProfile`, and the drains run `JSON.parse` on each element,
skipping elements that fail to parse.  An element is modelled as `Item`:
`ok j p` is a parseable entry for job `j` with payload `p`, and `bad t`
is an entry on which `JSON.parse` throws. -/

inductive Item where
  | ok (jobId : Nat) (payload : Nat)
  | bad (tag : Nat)
deriving DecidableEq

/-- `JSON.parse` of a stored buffer element, as used by both drains:
a parseable element yields its `(jobId, payload)` pair. -/
def parseItem : Item → Option (Nat × Nat)
  | .ok j p => some (j, p)
  | .bad _ => none

/-- State of the buffer subsystem.  `buffer` is the Redis list (head on
the left, `RPUSH` appends on the right).  `snap` is `some (j, items)`
while a `flushBufferForJob j` holds the `SET NX` drain lock and has
taken its `LRANGE` snapshot `items` but has not yet executed its
`MULTI` replacement; it doubles as the lock, since `flushBuffer` and
`flushBufferForJob` hold the lock across their whole critical section
and every other modelled step of theirs is a single atomic block. -/
structure BufState where
  buffer : List Item
  snap : Option (Nat × List Item)
deriving DecidableEq

/-- The atomic operations on the buffer (each is one synchronous block of
the source between `await` points that other callers can observe):

* `append j p` — `addToBuffer` (lines 317–342): one `RPUSH`; takes no lock.
* `flushUpTo n` — `flushBuffer(n)` (lines 376–412) as a whole: the
  `LPOP` loop pops from the head while the lock is held, so interleaved
  tail appends cannot change what it removes and it acts atomically.
* `forJob j` — `flushBufferForJob j` (lines 420–477) with no append
  interleaved between its snapshot and its replacement.
* `forJobSnap j` / `forJobCommit` — the same `flushBufferForJob j`
  split at its internal `await` boundary, to express interleavings in
  which `addToBuffer` runs between the `LRANGE` and the `MULTI`. -/
inductive BufOp where
  | append (jobId payload : Nat)
  | flushUpTo (n : Nat)
  | forJob (jobId : Nat)
  | forJobSnap (jobId : Nat)
  | forJobCommit
deriving DecidableEq

/-- The partition predicate of `flushBufferForJob`: a raw element is kept
in `remainingItems` iff it parses and belongs to a different job
(lines 444–455).  Elements that fail to parse are kept nowhere. -/
def keepsFor (jobId : Nat) (it : Item) : Bool :=
  match parseItem it with
  | some r => decide (¬ r.1 = jobId)
  | none => false

/-- The records `flushBufferForJob jobId` collects into `jobProfiles`:
parseable elements whose `jobId` field matches. -/
def matchesFor (jobId : Nat) (buf : List Item) : List (Nat × Nat) :=
  (buf.filterMap parseItem).filter (fun r => decide (r.1 = jobId))

/-- One atomic step of the buffer subsystem, returning the next state and
the records the step returns to its caller.  Mirrors
`aiAnalysisBuffer.ts`:

* `append`: `RPUSH` of the stringified record (the source returns the
  new length, which produces no records).
* `flushUpTo n`: `acquireLock` (`SET ... NX`) fails fast when the lock
  is held, returning `[]`; otherwise the loop `LPOP`s `n` times,
  collects the elements that parse, and releases the lock.
* `forJob j` / `forJobSnap j` + `forJobCommit`: fail fast under a held
  lock; otherwise snapshot the whole list, partition it, and — only when
  the partition removed something (`remainingItems.length !==
  allItems.length`) — replace the list contents with `remainingItems`,
  returning the matching records. -/
def stepBuf (s : BufState) : BufOp → BufState × List (Nat × Nat)
  | .append j p => ({ s with buffer := s.buffer ++ [.ok j p] }, [])
  | .flushUpTo n =>
      if s.snap.isSome then (s, [])
      else ({ buffer := s.buffer.drop n, snap := s.snap },
            (s.buffer.take n).filterMap parseItem)
  | .forJob j =>
      if s.snap.isSome then (s, [])
      else
        let all := s.buffer
        let remaining := all.filter (keepsFor j)
        let newBuf := if ¬ remaining.length = all.length then remaining else all
        ({ buffer := newBuf, snap := s.snap }, matchesFor j all)
  | .forJobSnap j =>
      if s.snap.isSome then (s, [])
      else ({ s with snap := some (j, s.buffer) }, [])
  | .forJobCommit =>
      match s.snap with
      | none => (s, [])
      | some (j, snapshot) =>
          let remaining := snapshot.filter (keepsFor j)
          let newBuf :=
            if ¬ remaining.length = snapshot.length then remaining else s.buffer
          ({ buffer := newBuf, snap := none }, matchesFor j snapshot)

/-- All records returned by drains over a sequence of operations. -/
def drainsOf : BufState → List BufOp → List (Nat × Nat)
  | _, [] => []
  | s, op :: t => (stepBuf s op).2 ++ drainsOf (stepBuf s op).1 t

/-- The buffer state after a sequence of operations. -/
def finalBuf : BufState → List BufOp → BufState
  | s, [] => s
  | s, op :: t => finalBuf (stepBuf s op).1 t

/-- Payloads appended for job `j` over a sequence of operations, in
order. -/
def appendedFor (j : Nat) : List BufOp → List Nat
  | [] => []
  | .append j' p :: t => (if j' = j then [p] else []) ++ appendedFor j t
  | _ :: t => appendedFor j t

/-- Payloads returned to drain callers for job `j` over a sequence of
operations, in order. -/
def drainedFor (j : Nat) (s : BufState) (t : List BufOp) : List Nat :=
  ((drainsOf s t).filter (fun r => decide (r.1 = j))).map Prod.snd

/-- Payloads for job `j` held in a buffer (parseable entries only). -/
def bufferedFor (j : Nat) (buf : List Item) : List Nat :=
  ((buf.filterMap parseItem).filter (fun r => decide (r.1 = j))).map Prod.snd

/-- Operations that do not leave `flushBufferForJob`'s critical section
open: a trace built from these never has an append interleaved between
the `LRANGE` snapshot and the `MULTI` replacement. -/
def atomicOp : BufOp → Bool
  | .forJobSnap _ => false
  | .forJobCommit => false
  | _ => true

/-! ## Crawl job lifecycle (`src/lib/queue/worker.ts`, `src/app/api/scrape/route.ts`)

The crawl job document lives in MongoDB; its counters are mutated with
atomic `$inc` updates by up to two concurrent workers (worker
`concurrency: 2`), so each `$inc` is one atomic step and steps of
different units interleave arbitrarily.  The queue (`scrapeQueue.ts`)
retries a unit whose handler throws, with `attempts: 3`. -/

/-- Job lifecycle status (`pending → processing → {completed, failed,
cancelled}`). -/
inductive JobStatus where
  | pending
  | processing
  | completed
  | failed
  | cancelled
deriving DecidableEq

/-- Statuses the spec calls terminal for completion detection. -/
def isTerminal : JobStatus → Bool
  | .completed => true
  | .failed => true
  | _ => false

/-- Counter state of one crawl job together with the queue bookkeeping
needed to relate the counters:

* `total`, `processed`, `failed` — the `totalProfiles`,
  `processedProfiles`, `failedProfiles` fields of the job document;
* `pendingUnits` — units sitting in the BullMQ queue (the seed, enqueued
  children, and re-enqueued retry attempts);
* `inflight` — attempts picked up by a worker that have not yet reached
  a counter increment (`$inc processedProfiles` at line 114 or the
  not-found / final-failure `$inc failedProfiles`);
* `expanding` — units whose attempt has passed the `$inc
  processedProfiles` and is still running (scraping connection lists,
  enqueueing children);
* `budget` — children already added to `totalProfiles` by the two
  `$inc totalProfiles` updates (lines 131, 156) but not yet enqueued by
  `addBulkScrapeJobs` (line 187), summed over all expanding units;
* `status`, `completedAt` — the job document's lifecycle fields. -/
structure CrawlState where
  total : Nat
  processed : Nat
  failed : Nat
  pendingUnits : Nat
  inflight : Nat
  expanding : Nat
  budget : Nat
  status : JobStatus
  completedAt : Option Nat
deriving DecidableEq

/-- The write `checkAndCompleteJob` performs once its guard passed
(worker.ts lines 261–270): status `failed` when `failedProfiles ===
totalProfiles`, else `completed`, and a fresh completion timestamp. -/
def completeWrite (now : Nat) (s : CrawlState) : CrawlState :=
  { s with
    status := if s.failed = s.total then .failed else .completed,
    completedAt := some now }

/-- Job state created by `POST /api/scrape` (route.ts lines 75–102):
`totalProfiles := 1`, zero progress counters, status `pending`, and the
seed unit enqueued. -/
def crawlInit : CrawlState :=
  { total := 1, processed := 0, failed := 0, pendingUnits := 1,
    inflight := 0, expanding := 0, budget := 0,
    status := .pending, completedAt := none }

/-- One atomic step of the crawl subsystem for a single job.  Every
constructor is one atomic MongoDB update (or queue transfer) of
`worker.ts`; steps of concurrent units interleave freely.  BullMQ fires
the worker-level `failed` event on *every* failed attempt — retried
attempts included, not only the one that exhausts `attempts: 3` — and
the handler of that event runs `$inc failedProfiles` (lines 214–226),
so every throwing attempt increments `failedProfiles` and, when
attempts remain, the attempt is additionally re-enqueued.  The `dirty`
flag marks the steps that only occur when an attempt throws: with
`dirty = false` every attempt either completes the handler or takes the
profile-not-found early return, so each unit contributes exactly one
counter increment — the regime the specification describes.

* `pickUp` — a worker dequeues an attempt and writes status
  `processing` (lines 39–45).
* `failNoRetry` — an attempt fails with no re-enqueue and one
  `$inc failedProfiles`: the `scrapeProfile`-null early return
  (line 57, a completed job, never retried), or a throw before
  line 114 on the unit's last attempt (`failed` handler,
  lines 214–226).
* `failRetry` — an attempt throws before line 114 with attempts
  remaining: the `failed` handler still runs `$inc failedProfiles`,
  and BullMQ re-enqueues the attempt.
* `accountOk` — `$inc processedProfiles` (lines 114–120); the unit keeps
  running (it is now `expanding`).
* `expandTotal k` — one `$inc totalProfiles` by a connection-list
  length (line 131 or line 156).
* `expandEnqueue c` — `addBulkScrapeJobs` enqueues the deduplicated
  child list (line 187); dedup makes `c` at most the number of
  connections counted into `totalProfiles` for the expanding units.
* `finishOk` — the handler returns; the unit is done.
* `failPostRetry` / `failPostFinal` — the attempt of an expanding unit
  (one that already ran `$inc processedProfiles`) throws: one
  `$inc failedProfiles` per attempt as well, plus a re-enqueue while
  attempts remain.
* `checkComplete` — `checkAndCompleteJob` finds `processed + failed ≥
  total > 0` and performs its terminal write (lines 244–270). -/
inductive CrawlStep (dirty : Bool) : CrawlState → CrawlState → Prop where
  | pickUp (s : CrawlState) (h : 0 < s.pendingUnits) :
      CrawlStep dirty s
        { s with pendingUnits := s.pendingUnits - 1,
                 inflight := s.inflight + 1, status := .processing }
  | failNoRetry (s : CrawlState) (h : 0 < s.inflight) :
      CrawlStep dirty s
        { s with inflight := s.inflight - 1, failed := s.failed + 1 }
  | failRetry (s : CrawlState) (h : 0 < s.inflight) (hd : dirty = true) :
      CrawlStep dirty s
        { s with inflight := s.inflight - 1, failed := s.failed + 1,
                 pendingUnits := s.pendingUnits + 1 }
  | accountOk (s : CrawlState) (h : 0 < s.inflight) :
      CrawlStep dirty s
        { s with inflight := s.inflight - 1,
                 processed := s.processed + 1,
                 expanding := s.expanding + 1 }
  | expandTotal (s : CrawlState) (k : Nat) (h : 0 < s.expanding) :
      CrawlStep dirty s
        { s with total := s.total + k, budget := s.budget + k }
  | expandEnqueue (s : CrawlState) (c : Nat) (h : 0 < s.expanding)
      (hc : c ≤ s.budget) :
      CrawlStep dirty s
        { s with budget := s.budget - c,
                 pendingUnits := s.pendingUnits + c }
  | finishOk (s : CrawlState) (h : 0 < s.expanding) :
      CrawlStep dirty s { s with expanding := s.expanding - 1 }
  | failPostRetry (s : CrawlState) (h : 0 < s.expanding) (hd : dirty = true) :
      CrawlStep dirty s
        { s with expanding := s.expanding - 1, failed := s.failed + 1,
                 pendingUnits := s.pendingUnits + 1 }
  | failPostFinal (s : CrawlState) (h : 0 < s.expanding) (hd : dirty = true) :
      CrawlStep dirty s
        { s with expanding := s.expanding - 1, failed := s.failed + 1 }
  | checkComplete (s : CrawlState) (now : Nat) (h1 : 0 < s.total)
      (h2 : s.total ≤ s.processed + s.failed) :
      CrawlStep dirty s (completeWrite now s)

/-- States reachable from job creation by interleaved unit steps. -/
def CrawlReachable (dirty : Bool) (s : CrawlState) : Prop :=
  Relation.ReflTransGen (CrawlStep dirty) crawlInit s

/-! ## `checkAndCompleteJob` as a function on the job document
(worker.ts lines 235–274)

The check reads the job document, and — whenever `processedProfiles +
failedProfiles >= totalProfiles && totalProfiles > 0` — flushes the
job's buffered records and unconditionally writes a terminal status and
a fresh `completedAt`.  The buffer flush does not touch the job
document, so the document-level effect of one invocation at time `now`
is this function.  There is no guard on the current status. -/

/-- The crawl job document fields read and written by
`checkAndCompleteJob`. -/
structure JobRecord where
  total : Nat
  processed : Nat
  failed : Nat
  status : JobStatus
  completedAt : Option Nat
deriving DecidableEq

/-- `checkAndCompleteJob` (worker.ts lines 235–274), document effect at
time `now`. -/
def checkAndCompleteJob (now : Nat) (j : JobRecord) : JobRecord :=
  if j.total ≤ j.processed + j.failed ∧ 0 < j.total then
    { j with
      status := if j.failed = j.total then .failed else .completed,
      completedAt := some now }
  else j

/-! ## Scraper session pool (`src/lib/scraper/session.ts`)

The pool maps a session id to at most one entry `{scraper, lastUsed,
inUse, useCount}`; `getScraperForSession` runs its body under the
per-session promise-chain lock (`acquireSessionLock`), so for a fixed
key the bodies of concurrent acquires serialize.  Distinct keys are
fully independent (per-key map entries and per-key locks), so the model
tracks one key.  Atomic steps are the synchronous blocks between
`await` points:

* the lock-holding body up to its first `await` decides on the current
  pool entry: reuse an idle entry (`enterIdle`, lines 194–201), observe
  a busy entry and back off to retry after a 1 s delay (`enterBusy`,
  lines 205–211), or find no entry and start the `getSession` database
  read while keeping the lock (`enterEmpty`, lines 213 ff.);
* `fetchInvalid` / `fetchValid` — the `getSession` read resolves:
  either no valid credentials (return null, lines 215–218) or a new
  `InstagramScraper` is constructed and its `init` starts (lines
  221–223) — the constructed handle is live from this point;
* `initDone` — `init` resolves and the entry is stored busy in the pool
  (lines 226–233);
* `initFail` — `init` rejects: the exception propagates to the caller,
  the `finally` block only releases the lock (lines 234–237), and the
  constructed handle is neither closed nor stored in the pool — it
  stays live, leaked, with no pool entry for the key;
* `releaseOp` — `releaseScraperForSession` (lines 240–247), which takes
  no lock and marks the entry idle;
* `sweep` — the periodic cleanup (lines 156–165) closes and removes an
  idle entry.

`live` is a ghost counter of constructed, not-yet-closed handles for
the key; `waiting` counts callers that have not yet entered the lock.
The `faulty` flag marks the step that only occurs when a handle's
initialisation throws; with `faulty = false` every construction is
stored in the pool. -/

/-- Per-key state of the session pool.  `entry = some b` models a pool
map entry with `inUse = b`; `fetching` and `initing` are the two
`await` phases of the construction path, both of which hold the lock. -/
structure PoolState where
  entry : Option Bool
  lockHeld : Bool
  waiting : Nat
  fetching : Bool
  initing : Bool
  live : Nat
deriving DecidableEq

/-- Initial pool state for a key: no entry, no lock, no live handle. -/
def poolInit : PoolState :=
  { entry := none, lockHeld := false, waiting := 0,
    fetching := false, initing := false, live := 0 }

/-- One atomic step of the session pool for a fixed key (see the section
comment for the source lines of each constructor). -/
inductive PoolStep (faulty : Bool) : PoolState → PoolState → Prop where
  | arrive (s : PoolState) :
      PoolStep faulty s { s with waiting := s.waiting + 1 }
  | enterIdle (s : PoolState) (h : 0 < s.waiting) (hl : s.lockHeld = false)
      (he : s.entry = some false) :
      PoolStep faulty s
        { s with waiting := s.waiting - 1, entry := some true }
  | enterBusy (s : PoolState) (h : 0 < s.waiting) (hl : s.lockHeld = false)
      (he : s.entry = some true) :
      PoolStep faulty s s
  | enterEmpty (s : PoolState) (h : 0 < s.waiting) (hl : s.lockHeld = false)
      (he : s.entry = none) :
      PoolStep faulty s
        { s with waiting := s.waiting - 1, lockHeld := true,
                 fetching := true }
  | fetchInvalid (s : PoolState) (h : s.fetching = true) :
      PoolStep faulty s { s with fetching := false, lockHeld := false }
  | fetchValid (s : PoolState) (h : s.fetching = true) :
      PoolStep faulty s
        { s with fetching := false, initing := true, live := s.live + 1 }
  | initDone (s : PoolState) (h : s.initing = true) :
      PoolStep faulty s
        { s with initing := false, entry := some true, lockHeld := false }
  | initFail (s : PoolState) (h : s.initing = true) (hf : faulty = true) :
      PoolStep faulty s { s with initing := false, lockHeld := false }
  | releaseOp (s : PoolState) (b : Bool) (h : s.entry = some b) :
      PoolStep faulty s { s with entry := some false }
  | sweep (s : PoolState) (h : s.entry = some false) :
      PoolStep faulty s { s with entry := none, live := s.live - 1 }

/-- Pool states reachable from the empty pool. -/
def PoolReachable (faulty : Bool) (s : PoolState) : Prop :=
  Relation.ReflTransGen (PoolStep faulty) poolInit s

/-! ## The busy-retry loop of `getScraperForSession`

When the pool holds a busy entry, `getScraperForSession` releases the
lock, sleeps 1000 ms, and calls itself again (session.ts lines
205–211) — there is no retry counter.  The loop is modelled as a
fuel-indexed evaluator over an environment `env` giving the pool view
the call observes at its `k`-th lock entry. -/

/-- What one lock entry of `getScraperForSession` observes for the key:
an idle pooled entry, a busy pooled entry, or no entry with the
`getSession` lookup succeeding / failing. -/
inductive PoolView where
  | idle
  | busy
  | absentValid
  | absentInvalid
deriving DecidableEq

/-- Result of a terminating `getScraperForSession` call: the pooled
handle, a freshly constructed handle, or null (no valid session). -/
inductive AcqResult where
  | pooled
  | fresh
  | noSession
deriving DecidableEq

/-- `getScraperForSession` under environment `env`, starting at retry
index `k`, with `fuel` remaining recursive calls to evaluate; `none`
means the call is still running after `fuel` entries.  A `busy`
observation releases the lock, waits, and recurses (lines 205–211);
every other observation returns in that entry. -/
def getScraperFuel (env : Nat → PoolView) : Nat → Nat → Option AcqResult
  | _, 0 => none
  | k, fuel + 1 =>
      match env k with
      | .idle => some .pooled
      | .busy => getScraperFuel env (k + 1) fuel
      | .absentValid => some .fresh
      | .absentInvalid => some .noSession

/-- The call terminates: some finite number of lock entries produces a
result. -/
def AcquireTerminates (env : Nat → PoolView) : Prop :=
  ∃ fuel r, getScraperFuel env 0 fuel = some r

/-- The environment in which the pooled entry is busy at every retry
(the holder never releases). -/
def alwaysBusy : Nat → PoolView := fun _ => PoolView.busy

/-! ## Pending-2FA registry and cleanup (`src/lib/queue/authWorker.ts`)

State of one auth flow, keyed by `authJobId`: the Redis job-state
record's status, whether `pendingAuthSessions` holds the parked
scraper, whether `cleanupTimers` holds the armed timer, and a ghost
flag recording that the parked scraper has been closed.  The Redis
record is assumed not yet expired (its TTL is handled by Redis, not by
this code). -/

/-- Auth job status (`pending → processing → {waiting_2fa, completed,
failed}`). -/
inductive AuthStatus where
  | pending
  | processing
  | waiting2fa
  | completed
  | failed
deriving DecidableEq

/-- State of one auth flow. -/
structure AuthState where
  status : AuthStatus
  pendingHandle : Bool
  timerArmed : Bool
  handleClosed : Bool
deriving DecidableEq

/-- The 2FA-required branch of `processLoginJob` (authWorker.ts lines
88–107): park the scraper in `pendingAuthSessions`, arm the cleanup
timer, set status `waiting_2fa`. -/
def reach2fa (s : AuthState) : AuthState :=
  { s with status := .waiting2fa, pendingHandle := true,
           timerArmed := true, handleClosed := false }

/-- The cleanup timer body armed by `scheduleSessionCleanup`
(authWorker.ts lines 19–32), firing after the fixed 5-minute window:
if the parked scraper is still registered, close it and remove it from
`pendingAuthSessions`; remove the timer.  It writes nothing to the auth
job state. -/
def cleanupFire (s : AuthState) : AuthState :=
  if s.timerArmed then
    if s.pendingHandle then
      { s with pendingHandle := false, handleClosed := true,
               timerArmed := false }
    else { s with timerArmed := false }
  else s

/-- Outcome of the `verify2FA` collaborator call. -/
inductive VerifyOutcome where
  | ok
  | wrongCode
  | err
deriving DecidableEq

/-- `process2FAJob` (authWorker.ts lines 156–255) with the collaborator
outcome as a parameter, assuming the Redis state record still exists:
no parked scraper means the flow expired and the job is marked failed
(lines 161–177); a wrong code keeps `waiting_2fa` (lines 196–211);
success and hard errors persist / fail, evict the registry entry,
cancel the timer, and close the scraper. -/
def process2FAJob (r : VerifyOutcome) (s : AuthState) : AuthState :=
  if s.pendingHandle = false then { s with status := .failed }
  else
    match r with
    | .ok =>
        { s with status := .completed, pendingHandle := false,
                 timerArmed := false, handleClosed := true }
    | .wrongCode => { s with status := .waiting2fa }
    | .err =>
        { s with status := .failed, pendingHandle := false,
                 timerArmed := false, handleClosed := true }

/-! ## Child-unit expansion (`src/lib/queue/worker.ts` lines 122–189)

When the processed unit is below the depth bound and the profile is not
private, the worker builds `childJobs`: all followers first (no
internal dedup), then each following user not already present among the
collected child jobs. -/

/-- The queue payload of one crawl unit (`ScrapeJobData` in
`src/types`). -/
structure ScrapeJobData where
  jobId : Nat
  sessionId : Nat
  username : String
  depth : Nat
  maxDepth : Nat
  parentUsername : Option String
  scrapeFollowers : Bool
  scrapeFollowing : Bool
  scrapePosts : Bool
deriving DecidableEq

/-- The child unit pushed for connection `u` of parent unit `p`
(worker.ts lines 137–147 and 164–174): same job, session and flags,
depth one deeper, parent set to the processed username. -/
def childOf (p : ScrapeJobData) (u : String) : ScrapeJobData :=
  { jobId := p.jobId, sessionId := p.sessionId, username := u,
    depth := p.depth + 1, maxDepth := p.maxDepth,
    parentUsername := some p.username,
    scrapeFollowers := p.scrapeFollowers,
    scrapeFollowing := p.scrapeFollowing, scrapePosts := p.scrapePosts }

/-- The push performed for one following user (worker.ts lines 161–176):
skipped iff some already-collected child has the same username. -/
def dedupPush (p : ScrapeJobData) (acc : List ScrapeJobData)
    (u : String) : List ScrapeJobData :=
  if acc.any (fun j => decide (j.username = u)) then acc
  else acc ++ [childOf p u]

/-- The `childJobs` list built by one unit's expansion (worker.ts lines
124–177): followers first (each pushed unconditionally, line 136), then
the following users folded through the dedup check. -/
def buildChildJobs (p : ScrapeJobData)
    (followers following : List String) : List ScrapeJobData :=
  let base := if p.scrapeFollowers then followers.map (childOf p) else []
  if p.scrapeFollowing then following.foldl (dedupPush p) base else base

/-- The whole conditional expansion (worker.ts line 123): children are
built only below the depth bound and for non-private profiles. -/
def expandUnit (p : ScrapeJobData) (isPrivate : Bool)
    (followers following : List String) : List ScrapeJobData :=
  if p.depth < p.maxDepth ∧ isPrivate = false then
    buildChildJobs p followers following
  else []

/-- The custom queue id `addScrapeJob` and `addBulkScrapeJobs` assign to
a unit (scrapeQueue.ts lines 47 and 62):
`${data.jobId}-${data.username}-${data.depth}`.  `jobId` is a
fixed-format UUID and usernames cannot contain a dash (route.ts
username pattern), so for a fixed job the string determines the
`(jobId, username, depth)` triple, modelled as the triple itself. -/
def childJobId (c : ScrapeJobData) : Nat × String × Nat :=
  (c.jobId, c.username, c.depth)

/-- One `queue.add` of the `addBulk` loop (scrapeQueue.ts lines 55–69):
BullMQ ignores an add whose custom job id already exists — in the queue
(`existing`) or among the jobs added earlier in the same bulk call
(`acc`) — emitting `duplicated` instead of enqueueing. -/
def addIfNew (existing : List (Nat × String × Nat))
    (acc : List ScrapeJobData) (c : ScrapeJobData) : List ScrapeJobData :=
  if childJobId c ∈ existing ∨ childJobId c ∈ acc.map childJobId then acc
  else acc ++ [c]

/-- `addBulkScrapeJobs` (scrapeQueue.ts lines 55–69) as the list of
units actually enqueued, given the custom ids already present in the
queue. -/
def addBulkScrapeJobs (existing : List (Nat × String × Nat))
    (jobs : List ScrapeJobData) : List ScrapeJobData :=
  jobs.foldl (addIfNew existing) []

/-! ## Crawl-job creation endpoint (`src/app/api/scrape/route.ts`)

`POST /api/scrape` validates the session cookie, parses the body, then
looks for an active job (`status` in `pending`/`processing`) of the
same session: if one exists it sets that job to `cancelled`, stamps
`completedAt`, saves it, and answers 409 without creating anything;
otherwise it creates a pending job with `totalProfiles = 1` and
enqueues the seed unit. -/

/-- The job-document fields the endpoint reads and writes. -/
structure DbJob where
  jobId : Nat
  sessionId : Nat
  status : JobStatus
  completedAt : Option Nat
deriving DecidableEq

/-- The `Job.findOne` filter of route.ts lines 52–55: same session and
status `pending` or `processing`. -/
def isActiveFor (sessionId : Nat) (j : DbJob) : Bool :=
  decide (j.sessionId = sessionId) &&
    (decide (j.status = JobStatus.pending) ||
     decide (j.status = JobStatus.processing))

/-- The endpoint's answer, reduced to the fields the claims are about. -/
structure ScrapeResponse where
  httpStatus : Nat
  success : Bool
  createdJob : Bool
deriving DecidableEq

/-- The job document created on the success path (route.ts lines
75–90). -/
def newDbJob (jobId sessionId : Nat) : DbJob :=
  { jobId := jobId, sessionId := sessionId, status := .pending,
    completedAt := none }

/-- `POST /api/scrape` (route.ts lines 20–127): 401 without a cookie or
with an invalid session, 400 on a body that fails validation, 409 —
after overwriting the found active job to `cancelled` with a completion
stamp — when the session already owns an active job, else job creation
and seed enqueue. -/
def scrapePost (db : List DbJob) (cookie : Option Nat)
    (sessionValid : Bool) (bodyValid : Bool) (now : Nat)
    (newJobId : Nat) : ScrapeResponse × List DbJob :=
  match cookie with
  | none => ({ httpStatus := 401, success := false, createdJob := false }, db)
  | some sid =>
      if sessionValid = false then
        ({ httpStatus := 401, success := false, createdJob := false }, db)
      else if bodyValid = false then
        ({ httpStatus := 400, success := false, createdJob := false }, db)
      else
        match db.find? (isActiveFor sid) with
        | some e =>
            ({ httpStatus := 409, success := false, createdJob := false },
             db.map (fun j =>
               if j.jobId = e.jobId then
                 { j with status := .cancelled, completedAt := some now }
               else j))
        | none =>
            ({ httpStatus := 200, success := true, createdJob := true },
             db ++ [newDbJob newJobId sid])

/-! ## Helper lemmas for the buffer model -/

theorem filter_self_of_length_eq {α : Type} {p : α → Bool} {l : List α}
    (h : (l.filter p).length = l.length) : l.filter p = l := by
  rw [List.filter_length_eq_length] at h
  exact List.filter_eq_self.mpr h

theorem replaceBuf_eq {α : Type} (p : α → Bool) (l : List α) :
    (if ¬ (l.filter p).length = l.length then l.filter p else l)
      = l.filter p := by
  by_cases h : (l.filter p).length = l.length
  · simp [h, filter_self_of_length_eq h]
  · simp [h]

theorem bufferedFor_append (j : Nat) (a b : List Item) :
    bufferedFor j (a ++ b) = bufferedFor j a ++ bufferedFor j b := by
  simp [bufferedFor, List.filterMap_append, List.filter_append]

theorem bufferedFor_cons_ok (j a p : Nat) (t : List Item) :
    bufferedFor j (.ok a p :: t)
      = (if a = j then [p] else []) ++ bufferedFor j t := by
  by_cases h : a = j <;> simp [bufferedFor, parseItem, h]

theorem bufferedFor_cons_bad (j tg : Nat) (t : List Item) :
    bufferedFor j (.bad tg :: t) = bufferedFor j t := by
  simp [bufferedFor, parseItem]

theorem matchesFor_filter_self (j : Nat) (buf : List Item) :
    ((matchesFor j buf).filter (fun r => decide (r.1 = j))).map Prod.snd
      = bufferedFor j buf := by
  simp [matchesFor, bufferedFor, List.filter_filter]

theorem matchesFor_filter_ne (j j' : Nat) (h : ¬ j = j') (buf : List Item) :
    (matchesFor j' buf).filter (fun r => decide (r.1 = j)) = [] := by
  refine List.filter_eq_nil_iff.mpr ?_
  intro r hr
  simp only [matchesFor, List.mem_filter, decide_eq_true_eq] at hr
  simp only [decide_eq_true_eq]
  intro hj
  omega

theorem keepsFor_ok_true (j' a p : Nat) (h : ¬ a = j') :
    keepsFor j' (Item.ok a p) = true := by
  simp [keepsFor, parseItem, h]

theorem keepsFor_ok_false (j' a p : Nat) (h : a = j') :
    keepsFor j' (Item.ok a p) = false := by
  simp [keepsFor, parseItem, h]

theorem keepsFor_bad (j' tg : Nat) : keepsFor j' (Item.bad tg) = false := by
  simp [keepsFor, parseItem]

theorem bufferedFor_filter_keeps (j j' : Nat) (h : ¬ j = j')
    (buf : List Item) :
    bufferedFor j (buf.filter (keepsFor j')) = bufferedFor j buf := by
  induction buf with
  | nil => rfl
  | cons it t ih =>
      cases it with
      | ok a p =>
          by_cases ha : a = j'
          · have hj : ¬ a = j := by omega
            rw [List.filter_cons, keepsFor_ok_false j' a p ha]
            simp only [Bool.false_eq_true, if_false]
            rw [ih, bufferedFor_cons_ok, if_neg hj, List.nil_append]
          · rw [List.filter_cons, keepsFor_ok_true j' a p ha]
            simp only [if_true]
            rw [bufferedFor_cons_ok, bufferedFor_cons_ok, ih]
      | bad tg =>
          rw [List.filter_cons, keepsFor_bad]
          simp only [Bool.false_eq_true, if_false]
          rw [ih, bufferedFor_cons_bad]

theorem bufferedFor_filter_keeps_self (j : Nat) (buf : List Item) :
    bufferedFor j (buf.filter (keepsFor j)) = [] := by
  induction buf with
  | nil => rfl
  | cons it t ih =>
      cases it with
      | ok a p =>
          by_cases ha : a = j
          · rw [List.filter_cons, keepsFor_ok_false j a p ha]
            simp only [Bool.false_eq_true, if_false]
            exact ih
          · rw [List.filter_cons, keepsFor_ok_true j a p ha]
            simp only [if_true]
            rw [bufferedFor_cons_ok, if_neg ha, List.nil_append, ih]
      | bad tg =>
          rw [List.filter_cons, keepsFor_bad]
          simp only [Bool.false_eq_true, if_false]
          exact ih

theorem drainedFor_cons (j : Nat) (s : BufState) (op : BufOp)
    (t : List BufOp) :
    drainedFor j s (op :: t)
      = (((stepBuf s op).2).filter (fun r => decide (r.1 = j))).map Prod.snd
          ++ drainedFor j (stepBuf s op).1 t := by
  simp [drainedFor, drainsOf, List.filter_append, List.map_append]

/-- The full accounting invariant of the buffer under traces whose
`flushBufferForJob`s run without interleaved appends: for every job, the
records appended during the trace, behind those already buffered, are
exactly the records handed to drain callers followed by those still
buffered. -/
theorem buffer_accounting (j : Nat) (t : List BufOp) :
    ∀ s : BufState, s.snap = none → t.all atomicOp = true →
      bufferedFor j s.buffer ++ appendedFor j t
        = drainedFor j s t ++ bufferedFor j (finalBuf s t).buffer := by
  induction t with
  | nil => intro s _ _; simp [appendedFor, drainedFor, drainsOf, finalBuf]
  | cons op t ih =>
      intro s hs hall
      rw [List.all_cons, Bool.and_eq_true] at hall
      have hsnap : s.snap.isSome = false := by simp [hs]
      cases op with
      | append j' p =>
          have hstep : stepBuf s (.append j' p)
              = ({ s with buffer := s.buffer ++ [.ok j' p] }, []) := rfl
          rw [drainedFor_cons, finalBuf, hstep]
          have ihs := ih { s with buffer := s.buffer ++ [.ok j' p] } hs hall.2
          have hsingle : bufferedFor j (s.buffer ++ [Item.ok j' p])
              = bufferedFor j s.buffer ++ (if j' = j then [p] else []) := by
            rw [bufferedFor_append]
            congr 1
            by_cases h : j' = j <;> simp [bufferedFor, parseItem, h]
          simp only [appendedFor, List.nil_append, List.filter_nil,
            List.map_nil]
          rw [← List.append_assoc, ← hsingle]
          exact ihs
      | flushUpTo n =>
          have hstep : stepBuf s (.flushUpTo n)
              = ({ buffer := s.buffer.drop n, snap := s.snap },
                 (s.buffer.take n).filterMap parseItem) := by
            simp [stepBuf, hsnap]
          rw [drainedFor_cons, finalBuf, hstep]
          have ihs := ih { buffer := s.buffer.drop n, snap := s.snap } hs hall.2
          simp only [appendedFor]
          have hsplit : bufferedFor j s.buffer
              = bufferedFor j (s.buffer.take n)
                  ++ bufferedFor j (s.buffer.drop n) := by
            rw [← bufferedFor_append, List.take_append_drop]
          rw [hsplit, List.append_assoc, ihs, List.append_assoc]
          rfl
      | forJob j' =>
          have hstep : stepBuf s (.forJob j')
              = ({ buffer := s.buffer.filter (keepsFor j'), snap := s.snap },
                 matchesFor j' s.buffer) := by
            simp only [stepBuf, hsnap, Bool.false_eq_true, if_false]
            rw [replaceBuf_eq]
          rw [drainedFor_cons, finalBuf, hstep]
          have ihs := ih ⟨s.buffer.filter (keepsFor j'), s.snap⟩ hs hall.2
          simp only [appendedFor]
          by_cases hj : j = j'
          · subst hj
            rw [matchesFor_filter_self]
            have hz : bufferedFor j (s.buffer.filter (keepsFor j)) = [] :=
              bufferedFor_filter_keeps_self j s.buffer
            rw [hz, List.nil_append] at ihs
            rw [List.append_assoc, ← ihs]
          · rw [matchesFor_filter_ne j j' hj, List.map_nil, List.nil_append]
            rw [bufferedFor_filter_keeps j j' hj] at ihs
            exact ihs
      | forJobSnap j' => simp [atomicOp] at hall
      | forJobCommit => simp [atomicOp] at hall

/-! ## Claim C3 -/

/-- The interleaving on which a record is lost: a record for job 0 is
appended; `flushBufferForJob 0` takes its `LRANGE` snapshot; a record
for job 1 is appended by `addToBuffer` (which takes no lock); the
`MULTI` replacement then overwrites the list with the snapshot's
remainder, deleting the job-1 record; a final `flushBufferForJob 1`
finds nothing. -/
def lostTrace : List BufOp :=
  [.append 0 0, .forJobSnap 0, .append 1 1, .forJobCommit, .forJob 1]

/-- C3 counterexample: under the interleaving `lostTrace`, one record was
appended for job 1, no drain ever returned it, and the final buffer is
empty — the record is lost, so the union of all drains for job 1 is not
the set of records appended for job 1. -/
theorem buffer_record_lost :
    appendedFor 1 lostTrace = [1]
      ∧ drainedFor 1 ⟨[], none⟩ lostTrace = []
      ∧ (finalBuf ⟨[], none⟩ lostTrace).buffer = [] := by decide

/-- C3 (amended): for a fixed job and any interleaving of `addToBuffer`,
`flushBuffer` and `flushBufferForJob` in which no append runs between a
`flushBufferForJob`'s snapshot and its remainder replacement (the
drains act atomically), the records returned by all drains for that
job, followed by that job's records still buffered, are exactly the
records ever appended for that job — no loss, no duplication.  The
unamended claim fails because `addToBuffer` does not take the drain
lock, so an append can race the remainder replacement and be deleted. -/
theorem drains_return_exactly_appends (t : List BufOp) (j : Nat)
    (h : t.all atomicOp = true) :
    appendedFor j t
      = drainedFor j ⟨[], none⟩ t
          ++ bufferedFor j (finalBuf ⟨[], none⟩ t).buffer := by
  have hmain := buffer_accounting j t ⟨[], none⟩ rfl h
  simpa [bufferedFor] using hmain

/-- Witness for the C3 theorem at a concrete interleaving: two appends,
a threshold drain of one record, then a job drain. -/
theorem drains_return_exactly_appends_witness :
    ([BufOp.append 2 10, BufOp.append 5 11, BufOp.flushUpTo 1,
        BufOp.forJob 2] : List BufOp).all atomicOp = true
      ∧ appendedFor 2
            [BufOp.append 2 10, BufOp.append 5 11, BufOp.flushUpTo 1,
              BufOp.forJob 2]
          = drainedFor 2 ⟨[], none⟩
                [BufOp.append 2 10, BufOp.append 5 11, BufOp.flushUpTo 1,
                  BufOp.forJob 2]
              ++ bufferedFor 2
                  (finalBuf ⟨[], none⟩
                    [BufOp.append 2 10, BufOp.append 5 11,
                      BufOp.flushUpTo 1, BufOp.forJob 2]).buffer :=
  ⟨by decide,
    drains_return_exactly_appends
      [BufOp.append 2 10, BufOp.append 5 11, BufOp.flushUpTo 1,
        BufOp.forJob 2] 2 (by decide)⟩

/-! ## Claim C6 -/

/-- C6: a `flushBuffer` call issued while another drain holds the
mutual-exclusion token returns the empty list and removes nothing: the
state is unchanged, every buffered record is still buffered, and once
the token is free a full-length drain returns every parseable record.
The losing drain is not queued — `stepBuf` returns to its caller in the
same step. -/
theorem flushBuffer_lock_contention (s : BufState) (n : Nat)
    (h : s.snap.isSome = true) :
    stepBuf s (.flushUpTo n) = (s, [])
      ∧ (∀ it ∈ s.buffer, it ∈ (stepBuf s (.flushUpTo n)).1.buffer)
      ∧ (stepBuf ⟨s.buffer, none⟩ (.flushUpTo s.buffer.length)).2
          = s.buffer.filterMap parseItem := by
  refine ⟨?_, ?_, ?_⟩
  · simp [stepBuf, h]
  · intro it hit
    simp only [stepBuf, h, if_true]
    exact hit
  · simp [stepBuf, List.take_length]

/-- Witness: a buffer holding one record, with a `flushBufferForJob 2`
critical section open. -/
theorem flushBuffer_lock_contention_witness :
    ((⟨[Item.ok 0 5], some (2, [Item.ok 0 5])⟩ : BufState).snap.isSome = true)
      ∧ (stepBuf ⟨[Item.ok 0 5], some (2, [Item.ok 0 5])⟩ (.flushUpTo 3)
            = (⟨[Item.ok 0 5], some (2, [Item.ok 0 5])⟩, [])
          ∧ (∀ it ∈ ([Item.ok 0 5] : List Item),
              it ∈ (stepBuf ⟨[Item.ok 0 5], some (2, [Item.ok 0 5])⟩
                  (.flushUpTo 3)).1.buffer)
          ∧ (stepBuf ⟨[Item.ok 0 5], none⟩
                (.flushUpTo ([Item.ok 0 5] : List Item).length)).2
              = ([Item.ok 0 5] : List Item).filterMap parseItem) :=
  ⟨by decide,
    flushBuffer_lock_contention ⟨[Item.ok 0 5], some (2, [Item.ok 0 5])⟩ 3
      (by decide)⟩

/-! ## Claim C9 -/

/-- C9: a buffer entry whose payload fails `JSON.parse` is silently
discarded by both drains.  `flushBufferForJob` leaves no unparseable
entry in the replaced buffer and returns only parseable matching
records; `flushBuffer` pops the first `n` entries — unparseable ones
included — while returning only those that parse. -/
theorem parse_failure_discarded (buf : List Item) (n j : Nat) :
    (∀ tg, Item.bad tg ∉ (stepBuf ⟨buf, none⟩ (.forJob j)).1.buffer)
      ∧ (stepBuf ⟨buf, none⟩ (.forJob j)).2 = matchesFor j buf
      ∧ (stepBuf ⟨buf, none⟩ (.flushUpTo n)).1.buffer = buf.drop n
      ∧ (stepBuf ⟨buf, none⟩ (.flushUpTo n)).2
          = (buf.take n).filterMap parseItem := by
  have hbuf : (stepBuf ⟨buf, none⟩ (.forJob j)).1.buffer
      = buf.filter (keepsFor j) := by
    simp only [stepBuf, Option.isSome_none, Bool.false_eq_true, if_false]
    exact replaceBuf_eq (keepsFor j) buf
  refine ⟨?_, ?_, ?_, ?_⟩
  · intro tg hmem
    rw [hbuf] at hmem
    have hk := (List.mem_filter.mp hmem).2
    rw [keepsFor_bad] at hk
    exact Bool.noConfusion hk
  · simp [stepBuf]
  · simp [stepBuf]
  · simp [stepBuf]

/-! ## Claim C1 -/

/-- Accounting invariant of the crawl system when every unit attempt
contributes at most one progress-counter increment: every unit is
counted into `totalProfiles` before it can be picked up, so progress
plus queued work plus counted-but-unenqueued children never exceeds the
total. -/
def crawlInv (s : CrawlState) : Prop :=
  s.processed + s.failed + s.inflight + s.pendingUnits + s.budget ≤ s.total

theorem crawlStep_inv {s s' : CrawlState} (hstep : CrawlStep false s s')
    (hinv : crawlInv s) : crawlInv s' := by
  cases hstep with
  | pickUp h => simp only [crawlInv] at *; omega
  | failNoRetry h => simp only [crawlInv] at *; omega
  | failRetry h hd => exact absurd hd (by simp)
  | accountOk h => simp only [crawlInv] at *; omega
  | expandTotal k h => simp only [crawlInv] at *; omega
  | expandEnqueue c h hc => simp only [crawlInv] at *; omega
  | finishOk h => simp only [crawlInv] at *; omega
  | failPostRetry h hd => exact absurd hd (by simp)
  | failPostFinal h hd => exact absurd hd (by simp)
  | checkComplete now h1 h2 => simp only [crawlInv, completeWrite] at *; omega

theorem crawl_reach_inv (s : CrawlState) (h : CrawlReachable false s) :
    crawlInv s := by
  induction h with
  | refl => simp [crawlInv, crawlInit]
  | tail hab hbc ih => exact crawlStep_inv hbc ih

/-- The over-counting state reached when the seed unit's first attempt
throws before its `$inc processedProfiles` and the retried attempt then
succeeds: the seed is the only counted unit (`totalProfiles = 1`), yet
both `failedProfiles` (from the first attempt's `failed` event) and
`processedProfiles` (from the successful retry) reached 1. -/
def crawlOverCount : CrawlState :=
  { total := 1, processed := 1, failed := 1, pendingUnits := 0,
    inflight := 0, expanding := 0, budget := 0, status := .processing,
    completedAt := none }

/-- C1 counterexample: the state `crawlOverCount`, in which
`processedProfiles + failedProfiles` exceeds `totalProfiles`, is
reachable from job creation.  The trace is a real execution of
`worker.ts`: the seed unit's first attempt throws (e.g. the scrape
times out) before reaching line 114; BullMQ fires the worker `failed`
event for that attempt — the event fires on every failed attempt, not
only on the exhausted one — whose handler runs `$inc failedProfiles`
(lines 214–226), and re-enqueues the attempt (`attempts: 3` in
`scrapeQueue.ts`); the retried attempt then succeeds and runs
`$inc processedProfiles` (line 114).  Now `processed + failed = 2 >
1 = total`.  (A unit whose attempts all throw after line 114 similarly
reaches `processed = 3, failed = 3` against `total = 1`.) -/
theorem crawl_overcount_reachable :
    CrawlReachable true crawlOverCount
      ∧ crawlOverCount.total
          < crawlOverCount.processed + crawlOverCount.failed := by
  constructor
  · have h1 : CrawlStep true crawlInit
        ⟨1, 0, 0, 0, 1, 0, 0, .processing, none⟩ :=
      CrawlStep.pickUp crawlInit (by decide)
    have h2 : CrawlStep true ⟨1, 0, 0, 0, 1, 0, 0, .processing, none⟩
        ⟨1, 0, 1, 1, 0, 0, 0, .processing, none⟩ :=
      CrawlStep.failRetry _ (by decide) rfl
    have h3 : CrawlStep true ⟨1, 0, 1, 1, 0, 0, 0, .processing, none⟩
        ⟨1, 0, 1, 0, 1, 0, 0, .processing, none⟩ :=
      CrawlStep.pickUp _ (by decide)
    have h4 : CrawlStep true ⟨1, 0, 1, 0, 1, 0, 0, .processing, none⟩
        ⟨1, 1, 1, 0, 0, 1, 0, .processing, none⟩ :=
      CrawlStep.accountOk _ (by decide)
    have h5 : CrawlStep true ⟨1, 1, 1, 0, 0, 1, 0, .processing, none⟩
        crawlOverCount :=
      CrawlStep.finishOk _ (by decide)
    exact ((((Relation.ReflTransGen.single h1).tail h2).tail h3).tail
      h4).tail h5
  · decide

/-- C1 (amended): restricted to executions in which no unit attempt
throws — every attempt either completes the handler or takes the
profile-not-found early return, so each unit contributes exactly one
counter increment, the regime the specification describes —
`processedProfiles + failedProfiles` never exceeds `totalProfiles`; in
every execution, throwing attempts included, a step can move the job
into a terminal status only from a state with
`processed + failed ≥ total > 0`, and the terminal write it performs
chooses `failed` exactly when `failedProfiles = totalProfiles` (else
`completed`) and stamps the completion time.  The unamended claim is
false: the worker `failed` event fires on every failed attempt, so a
throwing attempt that is retried gives its unit two or more counter
increments and `processed + failed` exceeds `total` (see the
counterexample). -/
theorem crawl_counters_amended :
    (∀ s, CrawlReachable false s → s.processed + s.failed ≤ s.total)
      ∧ (∀ (d : Bool) (s s' : CrawlState), CrawlStep d s s' →
          isTerminal s'.status = true →
          isTerminal s.status = true
            ∨ (0 < s.total ∧ s.total ≤ s.processed + s.failed))
      ∧ (∀ (now : Nat) (s : CrawlState),
          isTerminal (completeWrite now s).status = true
            ∧ ((completeWrite now s).status = JobStatus.failed
                ↔ s.failed = s.total)
            ∧ (completeWrite now s).completedAt = some now) := by
  refine ⟨?_, ?_, ?_⟩
  · intro s h
    have := crawl_reach_inv s h
    simp only [crawlInv] at this
    omega
  · intro d s s' hstep hterm
    cases hstep with
    | pickUp h => simp [isTerminal] at hterm
    | failNoRetry h => exact Or.inl hterm
    | failRetry h hd => exact Or.inl hterm
    | accountOk h => exact Or.inl hterm
    | expandTotal k h => exact Or.inl hterm
    | expandEnqueue c h hc => exact Or.inl hterm
    | finishOk h => exact Or.inl hterm
    | failPostRetry h hd => exact Or.inl hterm
    | failPostFinal h hd => exact Or.inl hterm
    | checkComplete now h1 h2 => exact Or.inr ⟨h1, h2⟩
  · intro now s
    by_cases hf : s.failed = s.total <;>
      simp [completeWrite, isTerminal, hf]

/-- Witness for the C1 theorem: the invariant holds at the
freshly-created job, and the terminal write on a concrete all-failed
state chooses status `failed`. -/
theorem crawl_counters_amended_witness :
    crawlInit.processed + crawlInit.failed ≤ crawlInit.total :=
  crawl_counters_amended.1 crawlInit Relation.ReflTransGen.refl

/-! ## Claim C2 -/

/-- C2 counterexample: `checkAndCompleteJob` has no terminal-status
guard.  Invoked again at time 9 on a job already completed at time 5
(counters `1 + 0 ≥ 1`), it rewrites the record — `completedAt` becomes
9 — so a later invocation does not leave the record unchanged; and if a
late failure has meanwhile bumped `failedProfiles` to `totalProfiles`,
the re-invocation flips the status from `completed` to `failed`. -/
theorem checkAndCompleteJob_not_idempotent :
    checkAndCompleteJob 9
        { total := 1, processed := 1, failed := 0,
          status := JobStatus.completed, completedAt := some 5 }
        ≠ { total := 1, processed := 1, failed := 0,
            status := JobStatus.completed, completedAt := some 5 }
      ∧ (checkAndCompleteJob 9
            { total := 1, processed := 1, failed := 1,
              status := JobStatus.completed, completedAt := some 5 }).status
          = JobStatus.failed := by decide

/-- C2 (amended): the completion check is not guarded by the current
status: every invocation that observes `processed + failed ≥ total > 0`
performs the terminal write, already-terminal jobs included.  It is
idempotent on the status field only — the status written is a function
of the (unchanged) counters, so a repeated invocation writes the same
status — while `completedAt` is overwritten with each invocation's
time. -/
theorem checkAndCompleteJob_rewrites (now now' : Nat) (j : JobRecord)
    (h1 : j.total ≤ j.processed + j.failed) (h2 : 0 < j.total) :
    isTerminal (checkAndCompleteJob now j).status = true
      ∧ (checkAndCompleteJob now' (checkAndCompleteJob now j)).status
          = (checkAndCompleteJob now j).status
      ∧ (checkAndCompleteJob now' (checkAndCompleteJob now j)).completedAt
          = some now' := by
    have hcond : j.total ≤ j.processed + j.failed ∧ 0 < j.total := ⟨h1, h2⟩
    by_cases hf : j.failed = j.total <;>
      simp [checkAndCompleteJob, hcond, hf, isTerminal]

/-- Witness for the C2 theorem at a concrete just-finished job. -/
theorem checkAndCompleteJob_rewrites_witness :
    ((3 : Nat) ≤ 2 + 1 ∧ (0 : Nat) < 3)
      ∧ (isTerminal (checkAndCompleteJob 7
            { total := 3, processed := 2, failed := 1,
              status := JobStatus.processing, completedAt := none }).status
              = true
          ∧ (checkAndCompleteJob 8 (checkAndCompleteJob 7
                { total := 3, processed := 2, failed := 1,
                  status := JobStatus.processing,
                  completedAt := none })).status
              = (checkAndCompleteJob 7
                  { total := 3, processed := 2, failed := 1,
                    status := JobStatus.processing,
                    completedAt := none }).status
          ∧ (checkAndCompleteJob 8 (checkAndCompleteJob 7
                { total := 3, processed := 2, failed := 1,
                  status := JobStatus.processing,
                  completedAt := none })).completedAt
              = some 8) :=
  ⟨⟨by decide, by decide⟩,
    checkAndCompleteJob_rewrites 7 8
      { total := 3, processed := 2, failed := 1,
        status := JobStatus.processing, completedAt := none }
      (by decide) (by decide)⟩

/-! ## Claim C4 -/

/-- Number of live handles a pool entry accounts for. -/
def entryCount : Option Bool → Nat
  | some _ => 1
  | none => 0

/-- Number of live handles an in-progress construction accounts for. -/
def phaseCount : Bool → Nat
  | true => 1
  | false => 0

/-- Structural invariant of the per-key session pool in executions where
no handle initialisation fails: every live handle is either the pooled
entry or the one being initialised; the construction phases hold the
per-key lock and only run while the pool has no entry for the key; and
at most one construction phase is active. -/
def poolInv (s : PoolState) : Prop :=
  s.live = entryCount s.entry + phaseCount s.initing
    ∧ ((s.fetching = true ∨ s.initing = true)
        → (s.lockHeld = true ∧ s.entry = none))
    ∧ ¬ (s.fetching = true ∧ s.initing = true)

theorem poolStep_inv {s s' : PoolState} (hstep : PoolStep false s s')
    (hinv : poolInv s) : poolInv s' := by
  obtain ⟨h1, h2, h3⟩ := hinv
  cases hstep with
  | arrive => exact ⟨h1, h2, h3⟩
  | enterIdle h hl he =>
      have hnf : s.fetching = false ∧ s.initing = false := by
        by_cases hf : s.fetching = true
        · exact absurd (h2 (Or.inl hf)).1 (by simp [hl])
        · by_cases hi : s.initing = true
          · exact absurd (h2 (Or.inr hi)).1 (by simp [hl])
          · exact ⟨by simpa using hf, by simpa using hi⟩
      refine ⟨?_, ?_, ?_⟩
      · simpa [entryCount, he] using h1
      · intro hfi
        simp only [hnf.1, hnf.2] at hfi
        simp at hfi
      · simp [hnf.1]
  | enterBusy h hl he => exact ⟨h1, h2, h3⟩
  | enterEmpty h hl he =>
      have hni : s.initing = false := by
        by_cases hi : s.initing = true
        · exact absurd (h2 (Or.inr hi)).1 (by simp [hl])
        · simpa using hi
      refine ⟨?_, ?_, ?_⟩
      · simpa [he, hni] using h1
      · intro _; exact ⟨rfl, he⟩
      · simp [hni]
  | fetchInvalid h =>
      have hlock := h2 (Or.inl h)
      have hni : s.initing = false := by
        by_cases hi : s.initing = true
        · exact absurd ⟨h, hi⟩ h3
        · simpa using hi
      refine ⟨?_, ?_, ?_⟩
      · simpa using h1
      · intro hfi
        simp only [hni] at hfi
        simp at hfi
      · simp
  | fetchValid h =>
      have hlock := h2 (Or.inl h)
      have hni : s.initing = false := by
        by_cases hi : s.initing = true
        · exact absurd ⟨h, hi⟩ h3
        · simpa using hi
      refine ⟨?_, ?_, ?_⟩
      · simp only [phaseCount, hlock.2, entryCount, hni] at h1 ⊢
        omega
      · intro _; exact hlock
      · simp
  | initDone h =>
      have hlock := h2 (Or.inr h)
      have hnf : s.fetching = false := by
        by_cases hf : s.fetching = true
        · exact absurd ⟨hf, h⟩ h3
        · simpa using hf
      refine ⟨?_, ?_, ?_⟩
      · simp only [entryCount, phaseCount, hlock.2, h] at h1 ⊢
        omega
      · intro hfi
        simp only [hnf] at hfi
        simp at hfi
      · simp [hnf]
  | initFail h hf => exact absurd hf (by simp)
  | releaseOp b h =>
      have hni : s.initing = false := by
        by_cases hi : s.initing = true
        · exact absurd (h2 (Or.inr hi)).2 (by simp [h])
        · simpa using hi
      have hnf : s.fetching = false := by
        by_cases hf : s.fetching = true
        · exact absurd (h2 (Or.inl hf)).2 (by simp [h])
        · simpa using hf
      refine ⟨?_, ?_, ?_⟩
      · simpa [entryCount, h] using h1
      · intro hfi
        simp only [hnf, hni] at hfi
        simp at hfi
      · simp [hnf]
  | sweep h =>
      have hni : s.initing = false := by
        by_cases hi : s.initing = true
        · exact absurd (h2 (Or.inr hi)).2 (by simp [h])
        · simpa using hi
      have hnf : s.fetching = false := by
        by_cases hf : s.fetching = true
        · exact absurd (h2 (Or.inl hf)).2 (by simp [h])
        · simpa using hf
      refine ⟨?_, ?_, ?_⟩
      · simp only [entryCount, phaseCount, h, hni] at h1 ⊢
        omega
      · intro hfi
        simp only [hnf, hni] at hfi
        simp at hfi
      · simp [hnf]

theorem pool_reach_inv (s : PoolState) (h : PoolReachable false s) :
    poolInv s := by
  induction h with
  | refl => refine ⟨rfl, ?_, ?_⟩ <;> simp [poolInit]
  | tail hab hbc ih => exact poolStep_inv hbc ih

/-- The lock discipline of the pool, valid also in executions where
handle initialisation can fail: the construction phases hold the
per-key lock and only run while the pool has no entry for the key, and
at most one construction phase is active. -/
def poolLockInv (s : PoolState) : Prop :=
  ((s.fetching = true ∨ s.initing = true)
      → (s.lockHeld = true ∧ s.entry = none))
    ∧ ¬ (s.fetching = true ∧ s.initing = true)

theorem poolStep_lockInv {f : Bool} {s s' : PoolState}
    (hstep : PoolStep f s s') (hinv : poolLockInv s) : poolLockInv s' := by
  obtain ⟨h2, h3⟩ := hinv
  cases hstep with
  | arrive => exact ⟨h2, h3⟩
  | enterIdle h hl he =>
      have hnf : s.fetching = false := by
        by_cases hf2 : s.fetching = true
        · exact absurd (h2 (Or.inl hf2)).1 (by simp [hl])
        · simpa using hf2
      have hni : s.initing = false := by
        by_cases hi : s.initing = true
        · exact absurd (h2 (Or.inr hi)).1 (by simp [hl])
        · simpa using hi
      constructor
      · intro hfi
        simp only [hnf, hni] at hfi
        simp at hfi
      · simp [hnf]
  | enterBusy h hl he => exact ⟨h2, h3⟩
  | enterEmpty h hl he =>
      have hni : s.initing = false := by
        by_cases hi : s.initing = true
        · exact absurd (h2 (Or.inr hi)).1 (by simp [hl])
        · simpa using hi
      constructor
      · intro _
        exact ⟨rfl, he⟩
      · simp [hni]
  | fetchInvalid h =>
      have hni : s.initing = false := by
        by_cases hi : s.initing = true
        · exact absurd ⟨h, hi⟩ h3
        · simpa using hi
      constructor
      · intro hfi
        simp only [hni] at hfi
        simp at hfi
      · simp
  | fetchValid h =>
      have hlock := h2 (Or.inl h)
      constructor
      · intro _
        exact hlock
      · simp
  | initDone h =>
      have hnf : s.fetching = false := by
        by_cases hf2 : s.fetching = true
        · exact absurd ⟨hf2, h⟩ h3
        · simpa using hf2
      constructor
      · intro hfi
        simp only [hnf] at hfi
        simp at hfi
      · simp [hnf]
  | initFail h hf =>
      have hnf : s.fetching = false := by
        by_cases hf2 : s.fetching = true
        · exact absurd ⟨hf2, h⟩ h3
        · simpa using hf2
      constructor
      · intro hfi
        simp only [hnf] at hfi
        simp at hfi
      · simp [hnf]
  | releaseOp b h =>
      have hni : s.initing = false := by
        by_cases hi : s.initing = true
        · exact absurd (h2 (Or.inr hi)).2 (by simp [h])
        · simpa using hi
      have hnf : s.fetching = false := by
        by_cases hf2 : s.fetching = true
        · exact absurd (h2 (Or.inl hf2)).2 (by simp [h])
        · simpa using hf2
      constructor
      · intro hfi
        simp only [hnf, hni] at hfi
        simp at hfi
      · simp [hnf]
  | sweep h =>
      have hni : s.initing = false := by
        by_cases hi : s.initing = true
        · exact absurd (h2 (Or.inr hi)).2 (by simp [h])
        · simpa using hi
      have hnf : s.fetching = false := by
        by_cases hf2 : s.fetching = true
        · exact absurd (h2 (Or.inl hf2)).2 (by simp [h])
        · simpa using hf2
      constructor
      · intro hfi
        simp only [hnf, hni] at hfi
        simp at hfi
      · simp [hnf]

theorem pool_reach_lockInv (f : Bool) (s : PoolState)
    (h : PoolReachable f s) : poolLockInv s := by
  induction h with
  | refl => refine ⟨?_, ?_⟩ <;> simp [poolInit]
  | tail hab hbc ih => exact poolStep_lockInv hbc ih

/-- The two-live-handle state: one handle leaked by a failed `init`
(never closed, never pooled) plus a second, successfully pooled busy
handle for the same key. -/
def poolLeak : PoolState :=
  { entry := some true, lockHeld := false, waiting := 0,
    fetching := false, initing := false, live := 2 }

/-- C4 counterexample: `poolLeak`, a state with two live handles for one
key, is reachable.  The trace is a real execution of
`getScraperForSession`: an acquire finds no entry, constructs a handle,
and `scraper.init` rejects — the exception propagates, the `finally`
block only releases the lock, and the handle is neither closed nor
pooled (leaked, still live); a second acquire again finds no entry and
constructs a second handle, which `init` then pools busy.  Two live
handles exist simultaneously, refuting the per-identity single-handle
invariant. -/
theorem session_pool_leak_reachable :
    PoolReachable true poolLeak ∧ 1 < poolLeak.live := by
  constructor
  · have h1 : PoolStep true poolInit ⟨none, false, 1, false, false, 0⟩ :=
      PoolStep.arrive poolInit
    have h2 : PoolStep true ⟨none, false, 1, false, false, 0⟩
        ⟨none, true, 0, true, false, 0⟩ :=
      PoolStep.enterEmpty _ (by decide) rfl rfl
    have h3 : PoolStep true ⟨none, true, 0, true, false, 0⟩
        ⟨none, true, 0, false, true, 1⟩ :=
      PoolStep.fetchValid _ rfl
    have h4 : PoolStep true ⟨none, true, 0, false, true, 1⟩
        ⟨none, false, 0, false, false, 1⟩ :=
      PoolStep.initFail _ rfl rfl
    have h5 : PoolStep true ⟨none, false, 0, false, false, 1⟩
        ⟨none, false, 1, false, false, 1⟩ :=
      PoolStep.arrive _
    have h6 : PoolStep true ⟨none, false, 1, false, false, 1⟩
        ⟨none, true, 0, true, false, 1⟩ :=
      PoolStep.enterEmpty _ (by decide) rfl rfl
    have h7 : PoolStep true ⟨none, true, 0, true, false, 1⟩
        ⟨none, true, 0, false, true, 2⟩ :=
      PoolStep.fetchValid _ rfl
    have h8 : PoolStep true ⟨none, true, 0, false, true, 2⟩ poolLeak :=
      PoolStep.initDone _ rfl
    exact ((((((Relation.ReflTransGen.single h1).tail h2).tail h3).tail
      h4).tail h5).tail h6).tail h7 |>.tail h8
  · decide

/-- C4 (amended): in executions where no handle initialisation fails, at
most one live browser-automation handle exists per key in every
reachable state — concurrent acquires serialized by the per-session
lock never produce two simultaneously live (hence never two busy)
handles; and in all executions, initialisation failures included, a
step that constructs a new handle (`new InstagramScraper()` on the
no-entry path) starts from a state in which the pool has no entry for
the key.  The unamended claim is false: a handle whose `init` rejects
is leaked live with no pool entry, so a retry constructs a second live
handle (see the counterexample). -/
theorem session_pool_handles_amended :
    (∀ s, PoolReachable false s → s.live ≤ 1)
      ∧ (∀ (f : Bool) (s s' : PoolState), PoolReachable f s →
          PoolStep f s s' → s.live < s'.live → s.entry = none) := by
  constructor
  · intro s h
    obtain ⟨h1, h2, h3⟩ := pool_reach_inv s h
    cases he : s.entry with
    | none => cases hi : s.initing <;>
        simp [he, hi, entryCount, phaseCount] at h1 <;> omega
    | some b =>
        have hni : s.initing = false := by
          by_cases hi : s.initing = true
          · exact absurd (h2 (Or.inr hi)).2 (by simp [he])
          · simpa using hi
        simp [he, hni, entryCount, phaseCount] at h1
        omega
  · intro f s s' hreach hstep hlt
    have hinv := pool_reach_lockInv f s hreach
    cases hstep with
    | arrive => simp at hlt
    | enterIdle h hl he => simp at hlt
    | enterBusy h hl he => simp at hlt
    | enterEmpty h hl he => simp at hlt
    | fetchInvalid h => simp at hlt
    | fetchValid h => exact (hinv.1 (Or.inl h)).2
    | initDone h => simp at hlt
    | initFail h hf => simp at hlt
    | releaseOp b h => simp at hlt
    | sweep h => simp at hlt; omega

/-- Witness for the C4 theorem: the handle bound holds at the empty
pool. -/
theorem session_pool_handles_amended_witness : poolInit.live ≤ 1 :=
  session_pool_handles_amended.1 poolInit Relation.ReflTransGen.refl

/-! ## Claim C8 -/

theorem getScraperFuel_alwaysBusy (fuel : Nat) :
    ∀ k, getScraperFuel alwaysBusy k fuel = none := by
  induction fuel with
  | zero => intro k; rfl
  | succ n ih =>
      intro k
      simpa [getScraperFuel, alwaysBusy] using ih (k + 1)

/-- C8 counterexample: `getScraperForSession` does not bound its
busy-retry loop — the busy branch releases the lock, sleeps 1000 ms and
recurses with no attempt counter — so against a pool whose entry stays
busy at every retry, the call never terminates: no amount of fuel
produces a result. -/
theorem getScraper_busy_nontermination : ¬ AcquireTerminates alwaysBusy := by
  rintro ⟨fuel, r, h⟩
  rw [getScraperFuel_alwaysBusy fuel 0] at h
  exact Option.noConfusion h

theorem getScraperFuel_reaches (env : Nat → PoolView) :
    ∀ (n k : Nat), env (k + n) ≠ PoolView.busy →
      ∃ r, getScraperFuel env k (n + 1) = some r := by
  intro n
  induction n with
  | zero =>
      intro k h
      simp only [Nat.add_zero] at h
      cases he : env k with
      | idle => exact ⟨.pooled, by simp [getScraperFuel, he]⟩
      | busy => exact absurd he h
      | absentValid => exact ⟨.fresh, by simp [getScraperFuel, he]⟩
      | absentInvalid => exact ⟨.noSession, by simp [getScraperFuel, he]⟩
  | succ m ih =>
      intro k h
      cases he : env k with
      | busy =>
          have harg : k + (m + 1) = (k + 1) + m := by omega
          rw [harg] at h
          obtain ⟨r, hr⟩ := ih (k + 1) h
          refine ⟨r, ?_⟩
          have hu : getScraperFuel env k (m + 1 + 1)
              = match env k with
                | .idle => some .pooled
                | .busy => getScraperFuel env (k + 1) (m + 1)
                | .absentValid => some .fresh
                | .absentInvalid => some .noSession := rfl
          rw [hu, he]
          exact hr
      | idle => exact ⟨.pooled, by simp [getScraperFuel, he]⟩
      | absentValid => exact ⟨.fresh, by simp [getScraperFuel, he]⟩
      | absentInvalid => exact ⟨.noSession, by simp [getScraperFuel, he]⟩

/-- C8 (amended): the busy branch of `getScraperForSession` retries with
a fixed 1-second delay and no busy-spin, but the number of retries is
unbounded; the call terminates whenever some retry observes the pool in
a non-busy state for the key (idle entry, or no entry), and diverges
against a permanently busy entry (see the counterexample). -/
theorem getScraper_terminates_of_nonbusy (env : Nat → PoolView) (k : Nat)
    (h : env k ≠ PoolView.busy) : AcquireTerminates env := by
  obtain ⟨r, hr⟩ := getScraperFuel_reaches env k 0 (by simpa using h)
  exact ⟨k + 1, r, hr⟩

/-- The environment in which the first retry finds the entry released. -/
def busyThenIdle : Nat → PoolView :=
  fun k => if k = 0 then PoolView.busy else PoolView.idle

/-- Witness for the C8 theorem: one busy observation followed by an idle
one terminates. -/
theorem getScraper_terminates_witness :
    busyThenIdle 1 ≠ PoolView.busy ∧ AcquireTerminates busyThenIdle :=
  ⟨by decide, getScraper_terminates_of_nonbusy busyThenIdle 1 (by decide)⟩

/-! ## Claim C5 -/

/-- A login job that has just reached the second-factor checkpoint:
handle parked, timer armed, status `waiting_2fa`. -/
def parkedLogin : AuthState :=
  reach2fa { status := .processing, pendingHandle := false,
             timerArmed := false, handleClosed := false }

/-- C5 counterexample: when the cleanup timer fires on an unclaimed
second-factor login, it closes the parked handle and removes the
registry entry, but it does not mark the auth job state failed — the
stored status remains `waiting_2fa`, contradicting the claim that the
timer marks the job failed. -/
theorem cleanup_does_not_fail_job :
    (cleanupFire parkedLogin).status = AuthStatus.waiting2fa
      ∧ ¬ (cleanupFire parkedLogin).status = AuthStatus.failed
      ∧ (cleanupFire parkedLogin).pendingHandle = false
      ∧ (cleanupFire parkedLogin).handleClosed = true := by decide

/-- C5 (amended): when the fixed cleanup window elapses without a
`verify-second-factor` claim, the timer force-closes the parked handle
and removes the registry entry, leaving the handle not reusable — but
it leaves the job status `waiting_2fa`; the job is marked failed only
later, when a `verify-second-factor` attempt (with any outcome) finds
no pending handle and records the flow as expired, or when the state
record's own TTL removes it. -/
theorem cleanup_closes_handle (s : AuthState) (r : VerifyOutcome)
    (h1 : s.timerArmed = true) (h2 : s.pendingHandle = true)
    (h3 : s.status = AuthStatus.waiting2fa) :
    (cleanupFire s).pendingHandle = false
      ∧ (cleanupFire s).handleClosed = true
      ∧ (cleanupFire s).status = AuthStatus.waiting2fa
      ∧ (process2FAJob r (cleanupFire s)).status = AuthStatus.failed := by
  simp [cleanupFire, h1, h2, h3, process2FAJob]

/-- Witness for the C5 theorem at the concrete parked login state. -/
theorem cleanup_closes_handle_witness :
    (parkedLogin.timerArmed = true ∧ parkedLogin.pendingHandle = true
        ∧ parkedLogin.status = AuthStatus.waiting2fa)
      ∧ ((cleanupFire parkedLogin).pendingHandle = false
          ∧ (cleanupFire parkedLogin).handleClosed = true
          ∧ (cleanupFire parkedLogin).status = AuthStatus.waiting2fa
          ∧ (process2FAJob VerifyOutcome.ok
              (cleanupFire parkedLogin)).status = AuthStatus.failed) :=
  ⟨⟨by decide, by decide, by decide⟩,
    cleanup_closes_handle parkedLogin VerifyOutcome.ok (by decide)
      (by decide) (by decide)⟩

/-! ## Claim C7 -/

theorem dedupPush_mem (p : ScrapeJobData) (acc : List ScrapeJobData)
    (a u : String) :
    (u ∈ (dedupPush p acc a).map (fun c => c.username))
      ↔ (u ∈ acc.map (fun c => c.username) ∨ u = a) := by
  unfold dedupPush
  by_cases h : acc.any (fun j => decide (j.username = a))
  · have ha : a ∈ acc.map (fun c => c.username) := by
      rcases List.any_eq_true.mp h with ⟨j, hj, hja⟩
      rw [decide_eq_true_eq] at hja
      exact hja ▸ List.mem_map_of_mem _ hj
    rw [if_pos h]
    constructor
    · exact Or.inl
    · rintro (hm | he)
      · exact hm
      · exact he ▸ ha
  · rw [if_neg h]
    simp [childOf]

theorem dedupPush_username_false
    (acc : List ScrapeJobData) (a : String)
    (h : ¬ acc.any (fun j => decide (j.username = a)) = true) :
    a ∉ acc.map (fun c => c.username) := by
  intro hmem
  rcases List.mem_map.mp hmem with ⟨c, hc, hcu⟩
  exact h (List.any_eq_true.mpr ⟨c, hc, decide_eq_true hcu⟩)

theorem dedupPush_nodup (p : ScrapeJobData) (acc : List ScrapeJobData)
    (a : String) (h : (acc.map (fun c => c.username)).Nodup) :
    ((dedupPush p acc a).map (fun c => c.username)).Nodup := by
  unfold dedupPush
  by_cases hany : acc.any (fun j => decide (j.username = a))
  · rw [if_pos hany]
    exact h
  · rw [if_neg hany]
    have hna := dedupPush_username_false acc a hany
    simp only [List.map_append, List.map_cons, List.map_nil, childOf]
    exact List.Nodup.append h (List.nodup_singleton a)
      (by simpa using hna)

theorem dedupFold_mem (p : ScrapeJobData) (l : List String) :
    ∀ (acc : List ScrapeJobData) (u : String),
      (u ∈ (l.foldl (dedupPush p) acc).map (fun c => c.username))
        ↔ (u ∈ acc.map (fun c => c.username) ∨ u ∈ l) := by
  induction l with
  | nil => intro acc u; simp
  | cons a l ih =>
      intro acc u
      rw [List.foldl_cons, ih, dedupPush_mem]
      simp only [List.mem_cons]
      tauto

theorem dedupFold_nodup (p : ScrapeJobData) (l : List String) :
    ∀ acc : List ScrapeJobData,
      (acc.map (fun c => c.username)).Nodup →
      ((l.foldl (dedupPush p) acc).map (fun c => c.username)).Nodup := by
  induction l with
  | nil => intro acc h; exact h
  | cons a l ih =>
      intro acc h
      rw [List.foldl_cons]
      exact ih _ (dedupPush_nodup p acc a h)

theorem dedupFold_extends (p : ScrapeJobData) (l : List String) :
    ∀ acc : List ScrapeJobData,
      ∃ rest, l.foldl (dedupPush p) acc = acc ++ rest
        ∧ ∀ c ∈ rest, (∃ u, u ∈ l ∧ c = childOf p u)
            ∧ ¬ c.username ∈ acc.map (fun x => x.username) := by
  induction l with
  | nil => intro acc; exact ⟨[], by simp, by simp⟩
  | cons a l ih =>
      intro acc
      rw [List.foldl_cons]
      by_cases hany : acc.any (fun j => decide (j.username = a))
      · have h1 : dedupPush p acc a = acc := by
          unfold dedupPush
          rw [if_pos hany]
        rw [h1]
        obtain ⟨rest, hr, hprop⟩ := ih acc
        refine ⟨rest, hr, ?_⟩
        intro c hc
        obtain ⟨⟨u, hu, hcu⟩, hn⟩ := hprop c hc
        exact ⟨⟨u, List.mem_cons_of_mem a hu, hcu⟩, hn⟩
      · have h1 : dedupPush p acc a = acc ++ [childOf p a] := by
          unfold dedupPush
          rw [if_neg hany]
        rw [h1]
        obtain ⟨rest, hr, hprop⟩ := ih (acc ++ [childOf p a])
        refine ⟨childOf p a :: rest, by simpa using hr, ?_⟩
        intro c hc
        rcases List.mem_cons.mp hc with h2 | h2
        · refine ⟨⟨a, List.mem_cons_self a l, h2⟩, ?_⟩
          rw [h2]
          exact dedupPush_username_false acc a hany
        · obtain ⟨⟨u, hu, hcu⟩, hn⟩ := hprop c h2
          refine ⟨⟨u, List.mem_cons_of_mem a hu, hcu⟩, ?_⟩
          intro hmem
          refine hn ?_
          rw [List.map_append]
          exact List.mem_append.mpr (Or.inl hmem)

theorem dedupFold_fields (p : ScrapeJobData) (P : ScrapeJobData → Prop)
    (hP : ∀ u, P (childOf p u)) (l : List String) :
    ∀ acc : List ScrapeJobData, (∀ c ∈ acc, P c) →
      ∀ c ∈ l.foldl (dedupPush p) acc, P c := by
  induction l with
  | nil => intro acc hacc; exact hacc
  | cons a l ih =>
      intro acc hacc
      rw [List.foldl_cons]
      refine ih _ ?_
      intro c hc
      unfold dedupPush at hc
      by_cases hany : acc.any (fun j => decide (j.username = a))
      · rw [if_pos hany] at hc
        exact hacc c hc
      · rw [if_neg hany] at hc
        rcases List.mem_append.mp hc with hmem | hmem
        · exact hacc c hmem
        · rw [List.mem_singleton.mp hmem]
          exact hP a

theorem followers_usernames (p : ScrapeJobData) (followers : List String) :
    (followers.map (childOf p)).map (fun c => c.username) = followers := by
  induction followers with
  | nil => rfl
  | cons a l ih => simp [childOf, ih]

/-- The parent unit used in the C7 witness: depth 0 under bound 1, both
connection lists scraped. -/
def seedUnit : ScrapeJobData :=
  { jobId := 0, sessionId := 0, username := "seed", depth := 0,
    maxDepth := 1, parentUsername := none, scrapeFollowers := true,
    scrapeFollowing := true, scrapePosts := false }

theorem addFold_ids_mem (existing : List (Nat × String × Nat))
    (l : List ScrapeJobData) :
    ∀ (acc : List ScrapeJobData) (i : Nat × String × Nat),
      (i ∈ (l.foldl (addIfNew existing) acc).map childJobId)
        ↔ (i ∈ acc.map childJobId
            ∨ (i ∈ l.map childJobId ∧ ¬ i ∈ existing)) := by
  induction l with
  | nil => intro acc i; simp
  | cons c l ih =>
      intro acc i
      rw [List.foldl_cons]
      by_cases hc : childJobId c ∈ existing ∨ childJobId c ∈ acc.map childJobId
      · have h1 : addIfNew existing acc c = acc := by
          unfold addIfNew
          rw [if_pos hc]
        rw [h1, ih]
        simp only [List.map_cons, List.mem_cons]
        constructor
        · rintro (hm | ⟨hml, hex⟩)
          · exact Or.inl hm
          · exact Or.inr ⟨Or.inr hml, hex⟩
        · rintro (hm | ⟨hid | hml, hex⟩)
          · exact Or.inl hm
          · rcases hc with hce | hca
            · exact absurd (by rw [hid]; exact hce) hex
            · exact Or.inl (by rw [hid]; exact hca)
          · exact Or.inr ⟨hml, hex⟩
      · have h1 : addIfNew existing acc c = acc ++ [c] := by
          unfold addIfNew
          rw [if_neg hc]
        push_neg at hc
        rw [h1, ih]
        simp only [List.map_append, List.map_cons, List.map_nil,
          List.mem_append, List.mem_cons, List.not_mem_nil, or_false]
        constructor
        · rintro ((hm | hid) | ⟨hml, hex⟩)
          · exact Or.inl hm
          · exact Or.inr ⟨Or.inl hid, by rw [hid]; exact hc.1⟩
          · exact Or.inr ⟨Or.inr hml, hex⟩
        · rintro (hm | ⟨hid | hml, hex⟩)
          · exact Or.inl (Or.inl hm)
          · exact Or.inl (Or.inr hid)
          · exact Or.inr ⟨hml, hex⟩

theorem addFold_ids_nodup (existing : List (Nat × String × Nat))
    (l : List ScrapeJobData) :
    ∀ acc : List ScrapeJobData, ((acc.map childJobId).Nodup) →
      (((l.foldl (addIfNew existing) acc).map childJobId).Nodup) := by
  induction l with
  | nil => intro acc h; exact h
  | cons c l ih =>
      intro acc h
      rw [List.foldl_cons]
      by_cases hc : childJobId c ∈ existing ∨ childJobId c ∈ acc.map childJobId
      · have h1 : addIfNew existing acc c = acc := by
          unfold addIfNew
          rw [if_pos hc]
        rw [h1]
        exact ih acc h
      · have h1 : addIfNew existing acc c = acc ++ [c] := by
          unfold addIfNew
          rw [if_neg hc]
        push_neg at hc
        rw [h1]
        refine ih _ ?_
        simp only [List.map_append, List.map_cons, List.map_nil]
        exact List.Nodup.append h (List.nodup_singleton _)
          (by simpa using hc.2)

theorem addFold_elems (existing : List (Nat × String × Nat))
    (l : List ScrapeJobData) :
    ∀ (acc : List ScrapeJobData) (c : ScrapeJobData),
      c ∈ l.foldl (addIfNew existing) acc → c ∈ acc ∨ c ∈ l := by
  induction l with
  | nil => intro acc c h; exact Or.inl h
  | cons d l ih =>
      intro acc c h
      rw [List.foldl_cons] at h
      rcases ih _ c h with hm | hm
      · by_cases hc : childJobId d ∈ existing ∨ childJobId d ∈ acc.map childJobId
        · have h1 : addIfNew existing acc d = acc := by
            unfold addIfNew
            rw [if_pos hc]
          rw [h1] at hm
          exact Or.inl hm
        · have h1 : addIfNew existing acc d = acc ++ [d] := by
            unfold addIfNew
            rw [if_neg hc]
          rw [h1] at hm
          rcases List.mem_append.mp hm with h2 | h2
          · exact Or.inl h2
          · refine Or.inr ?_
            rw [List.mem_singleton.mp h2]
            exact List.mem_cons_self d l
      · exact Or.inr (List.mem_cons_of_mem d hm)

theorem addFold_extends (existing : List (Nat × String × Nat))
    (l : List ScrapeJobData) :
    ∀ acc : List ScrapeJobData,
      ∃ rest, l.foldl (addIfNew existing) acc = acc ++ rest
        ∧ ∀ c ∈ rest, c ∈ l := by
  induction l with
  | nil => intro acc; exact ⟨[], by simp, by simp⟩
  | cons d l ih =>
      intro acc
      rw [List.foldl_cons]
      by_cases hc : childJobId d ∈ existing ∨ childJobId d ∈ acc.map childJobId
      · have h1 : addIfNew existing acc d = acc := by
          unfold addIfNew
          rw [if_pos hc]
        rw [h1]
        obtain ⟨rest, hr, hmem⟩ := ih acc
        exact ⟨rest, hr, fun c hc2 => List.mem_cons_of_mem d (hmem c hc2)⟩
      · have h1 : addIfNew existing acc d = acc ++ [d] := by
          unfold addIfNew
          rw [if_neg hc]
        rw [h1]
        obtain ⟨rest, hr, hmem⟩ := ih (acc ++ [d])
        refine ⟨d :: rest, by simpa using hr, ?_⟩
        intro c hc2
        rcases List.mem_cons.mp hc2 with h2 | h2
        · rw [h2]
          exact List.mem_cons_self d l
        · exact List.mem_cons_of_mem d (hmem c h2)

theorem mem_map_triple (J D : Nat) (L : List String) (u : String) :
    ((J, u, D) ∈ L.map (fun v => (J, v, D))) ↔ u ∈ L := by
  constructor
  · intro h
    rcases List.mem_map.mp h with ⟨v, hv, heq⟩
    have hvu : v = u := congrArg (fun x => x.2.1) heq
    exact hvu ▸ hv
  · intro h
    exact List.mem_map_of_mem _ h

theorem map_childJobId_eq (J D : Nat) (l : List ScrapeJobData)
    (h : ∀ c ∈ l, c.jobId = J ∧ c.depth = D) :
    l.map childJobId
      = (l.map (fun c => c.username)).map (fun v => (J, v, D)) := by
  induction l with
  | nil => rfl
  | cons c t ih =>
      simp only [List.map_cons]
      have hc := h c (List.mem_cons_self c t)
      rw [ih (fun d hd => h d (List.mem_cons_of_mem c hd))]
      congr 1
      simp [childJobId, hc.1, hc.2]

/-- C7: for a unit below its depth bound whose target is not private,
with both connection lists scraped and none of the child queue ids
(`jobId-username-(d+1)`) already present in the queue, each distinct
connection username is enqueued as exactly one child unit at depth
`d + 1` per this unit’s expansion: the enqueued usernames are nodup and
are exactly the followers-or-following usernames (so a username in both
lists, or repeated inside one list, yields one unit — BullMQ ignores an
add whose custom id `jobId-username-depth` already exists), followers
are enqueued before following, and every enqueued unit carries depth
`d + 1`, the parent’s job id, and the processed username as parent.
The id-freshness hypothesis scopes the statement to this unit’s own
expansion, as the claim does; when a sibling unit has already enqueued
the same username at the same depth, BullMQ also ignores this unit’s
add — that cross-unit suppression is outside this claim. -/
theorem children_enqueued_once (p : ScrapeJobData)
    (followers following : List String)
    (existing : List (Nat × String × Nat))
    (hf : p.scrapeFollowers = true) (hg : p.scrapeFollowing = true)
    (hd : p.depth < p.maxDepth)
    (hfresh : ∀ u : String, ¬ (p.jobId, u, p.depth + 1) ∈ existing) :
    ((addBulkScrapeJobs existing
        (expandUnit p false followers following)).map
          (fun c => c.username)).Nodup
      ∧ (∀ u, u ∈ (addBulkScrapeJobs existing
            (expandUnit p false followers following)).map
              (fun c => c.username)
          ↔ (u ∈ followers ∨ u ∈ following))
      ∧ (∃ A B, addBulkScrapeJobs existing
            (expandUnit p false followers following) = A ++ B
          ∧ (∀ c ∈ A, c.username ∈ followers)
          ∧ (∀ c ∈ B, c.username ∈ following ∧ ¬ c.username ∈ followers))
      ∧ (∀ c ∈ addBulkScrapeJobs existing
            (expandUnit p false followers following),
          c.depth = p.depth + 1 ∧ c.jobId = p.jobId
            ∧ c.parentUsername = some p.username) := by
  have hexp : expandUnit p false followers following
      = following.foldl (dedupPush p) (followers.map (childOf p)) := by
    simp [expandUnit, hd, buildChildJobs, hf, hg]
  have hfieldsChildren : ∀ c ∈ expandUnit p false followers following,
      c.depth = p.depth + 1 ∧ c.jobId = p.jobId
        ∧ c.parentUsername = some p.username := by
    rw [hexp]
    refine dedupFold_fields p _ ?_ following _ ?_
    · intro u
      exact ⟨rfl, rfl, rfl⟩
    · intro c hc
      rcases List.mem_map.mp hc with ⟨u, _, hu⟩
      rw [← hu]
      exact ⟨rfl, rfl, rfl⟩
  have hfieldsEnq : ∀ c ∈ addBulkScrapeJobs existing
      (expandUnit p false followers following),
      c.depth = p.depth + 1 ∧ c.jobId = p.jobId
        ∧ c.parentUsername = some p.username := by
    intro c hc
    rcases addFold_elems existing _ [] c hc with hm | hm
    · exact absurd hm (List.not_mem_nil c)
    · exact hfieldsChildren c hm
  have hidEnq : (addBulkScrapeJobs existing
        (expandUnit p false followers following)).map childJobId
      = ((addBulkScrapeJobs existing
          (expandUnit p false followers following)).map
            (fun c => c.username)).map
          (fun v => (p.jobId, v, p.depth + 1)) := by
    refine map_childJobId_eq p.jobId (p.depth + 1) _ ?_
    intro c hc
    obtain ⟨hde, hjo, _⟩ := hfieldsEnq c hc
    exact ⟨hjo, hde⟩
  have hidChildren : (expandUnit p false followers following).map childJobId
      = ((expandUnit p false followers following).map
            (fun c => c.username)).map
          (fun v => (p.jobId, v, p.depth + 1)) := by
    refine map_childJobId_eq p.jobId (p.depth + 1) _ ?_
    intro c hc
    obtain ⟨hde, hjo, _⟩ := hfieldsChildren c hc
    exact ⟨hjo, hde⟩
  have hmemChildren : ∀ u, u ∈ (expandUnit p false followers following).map
      (fun c => c.username) ↔ (u ∈ followers ∨ u ∈ following) := by
    intro u
    rw [hexp, dedupFold_mem, followers_usernames]
  refine ⟨?_, ?_, ?_, hfieldsEnq⟩
  · have hnod : ((addBulkScrapeJobs existing
        (expandUnit p false followers following)).map childJobId).Nodup :=
      addFold_ids_nodup existing _ [] (by simp)
    rw [hidEnq] at hnod
    exact List.Nodup.of_map _ hnod
  · intro u
    have hstep : ((p.jobId, u, p.depth + 1)
          ∈ (addBulkScrapeJobs existing
              (expandUnit p false followers following)).map childJobId)
        ↔ ((p.jobId, u, p.depth + 1)
              ∈ ([] : List ScrapeJobData).map childJobId
            ∨ ((p.jobId, u, p.depth + 1)
                  ∈ (expandUnit p false followers following).map childJobId
                ∧ ¬ (p.jobId, u, p.depth + 1) ∈ existing)) :=
      addFold_ids_mem existing (expandUnit p false followers following) []
        (p.jobId, u, p.depth + 1)
    rw [hidEnq, hidChildren] at hstep
    rw [← mem_map_triple p.jobId (p.depth + 1), hstep]
    simp only [List.map_nil, List.not_mem_nil, false_or]
    rw [mem_map_triple, hmemChildren u]
    constructor
    · rintro ⟨hm, _⟩
      exact hm
    · intro hm
      exact ⟨hm, hfresh u⟩
  · obtain ⟨grest, hgr, hgprop⟩ := dedupFold_extends p following
      (followers.map (childOf p))
    have hsplit : addBulkScrapeJobs existing
        (expandUnit p false followers following)
      = grest.foldl (addIfNew existing)
          ((followers.map (childOf p)).foldl (addIfNew existing) []) := by
      rw [addBulkScrapeJobs, hexp, hgr, List.foldl_append]
    obtain ⟨rest, hr, hrmem⟩ := addFold_extends existing grest
      ((followers.map (childOf p)).foldl (addIfNew existing) [])
    refine ⟨(followers.map (childOf p)).foldl (addIfNew existing) [],
      rest, by rw [hsplit, hr], ?_, ?_⟩
    · intro c hc
      rcases addFold_elems existing _ [] c hc with hm | hm
      · exact absurd hm (List.not_mem_nil c)
      · rcases List.mem_map.mp hm with ⟨u, hu, hcu⟩
        rw [← hcu]
        exact hu
    · intro c hc
      obtain ⟨⟨u, hu, hcu⟩, hn⟩ := hgprop c (hrmem c hc)
      constructor
      · rw [hcu]
        exact hu
      · rw [followers_usernames] at hn
        exact hn

/-- Witness for the C7 theorem at concrete connection lists
(`followers = [a, b]`, `following = [b, c]`) against an empty queue. -/
theorem children_enqueued_once_witness :
    (seedUnit.scrapeFollowers = true ∧ seedUnit.scrapeFollowing = true
        ∧ seedUnit.depth < seedUnit.maxDepth
        ∧ (∀ u : String,
            ¬ (seedUnit.jobId, u, seedUnit.depth + 1)
              ∈ ([] : List (Nat × String × Nat))))
      ∧ (((addBulkScrapeJobs []
            (expandUnit seedUnit false ["a", "b"] ["b", "c"])).map
              (fun c => c.username)).Nodup
          ∧ (∀ u, u ∈ (addBulkScrapeJobs []
                (expandUnit seedUnit false ["a", "b"] ["b", "c"])).map
                  (fun c => c.username)
              ↔ (u ∈ (["a", "b"] : List String)
                  ∨ u ∈ (["b", "c"] : List String)))
          ∧ (∃ A B, addBulkScrapeJobs []
                (expandUnit seedUnit false ["a", "b"] ["b", "c"]) = A ++ B
              ∧ (∀ c ∈ A, c.username ∈ (["a", "b"] : List String))
              ∧ (∀ c ∈ B, c.username ∈ (["b", "c"] : List String)
                  ∧ ¬ c.username ∈ (["a", "b"] : List String)))
          ∧ (∀ c ∈ addBulkScrapeJobs []
                (expandUnit seedUnit false ["a", "b"] ["b", "c"]),
              c.depth = seedUnit.depth + 1 ∧ c.jobId = seedUnit.jobId
                ∧ c.parentUsername = some seedUnit.username)) :=
  ⟨⟨by decide, by decide, by decide, by simp⟩,
    children_enqueued_once seedUnit ["a", "b"] ["b", "c"] [] (by decide)
      (by decide) (by decide) (by simp)⟩

/-! ## Claim C10 -/

/-- C10: a create-crawl-job request whose (valid) session already owns a
job in status `pending` or `processing` is answered 409 without
creating a job — the database keeps its length and no job is created —
but as a side effect the found active job is overwritten to `cancelled`
and stamped with the current time; all other jobs are untouched. -/
theorem scrapePost_conflict (db : List DbJob) (sid now newJobId : Nat)
    (e : DbJob) (hfind : db.find? (isActiveFor sid) = some e) :
    (scrapePost db (some sid) true true now newJobId).1
        = { httpStatus := 409, success := false, createdJob := false }
      ∧ ((scrapePost db (some sid) true true now newJobId).2).length
          = db.length
      ∧ { e with status := JobStatus.cancelled, completedAt := some now }
          ∈ (scrapePost db (some sid) true true now newJobId).2
      ∧ (∀ j ∈ db, ¬ j.jobId = e.jobId →
          j ∈ (scrapePost db (some sid) true true now newJobId).2)
      ∧ (e.status = JobStatus.pending ∨ e.status = JobStatus.processing) := by
  have hmem : e ∈ db := List.mem_of_find?_eq_some hfind
  have hact : isActiveFor sid e = true := List.find?_some hfind
  have hres : scrapePost db (some sid) true true now newJobId
      = ({ httpStatus := 409, success := false, createdJob := false },
         db.map (fun j =>
           if j.jobId = e.jobId then
             { j with status := .cancelled, completedAt := some now }
           else j)) := by
    simp [scrapePost, hfind]
  refine ⟨?_, ?_, ?_, ?_, ?_⟩
  · rw [hres]
  · rw [hres]
    exact List.length_map db _
  · rw [hres]
    have := List.mem_map_of_mem
      (fun j => if j.jobId = e.jobId then
        { j with status := JobStatus.cancelled, completedAt := some now }
      else j) hmem
    simpa using this
  · intro j hj hne
    rw [hres]
    have := List.mem_map_of_mem
      (fun j => if j.jobId = e.jobId then
        { j with status := JobStatus.cancelled, completedAt := some now }
      else j) hj
    simpa [hne] using this
  · simp only [isActiveFor, Bool.and_eq_true, Bool.or_eq_true,
      decide_eq_true_eq] at hact
    exact hact.2

/-- Witness for the C10 theorem: one active job for session 3. -/
theorem scrapePost_conflict_witness :
    (([⟨7, 3, JobStatus.processing, none⟩] : List DbJob).find?
          (isActiveFor 3) = some ⟨7, 3, JobStatus.processing, none⟩)
      ∧ ((scrapePost [⟨7, 3, JobStatus.processing, none⟩] (some 3) true true
              11 99).1
            = { httpStatus := 409, success := false, createdJob := false }
          ∧ ((scrapePost [⟨7, 3, JobStatus.processing, none⟩] (some 3) true
                true 11 99).2).length
              = ([⟨7, 3, JobStatus.processing, none⟩] : List DbJob).length
          ∧ { (⟨7, 3, JobStatus.processing, none⟩ : DbJob) with
                status := JobStatus.cancelled, completedAt := some 11 }
              ∈ (scrapePost [⟨7, 3, JobStatus.processing, none⟩] (some 3)
                  true true 11 99).2
          ∧ (∀ j ∈ ([⟨7, 3, JobStatus.processing, none⟩] : List DbJob),
              ¬ j.jobId = (⟨7, 3, JobStatus.processing, none⟩ : DbJob).jobId →
              j ∈ (scrapePost [⟨7, 3, JobStatus.processing, none⟩] (some 3)
                  true true 11 99).2)
          ∧ ((⟨7, 3, JobStatus.processing, none⟩ : DbJob).status
                = JobStatus.pending
              ∨ (⟨7, 3, JobStatus.processing, none⟩ : DbJob).status
                = JobStatus.processing)) :=
  ⟨by decide,
    scrapePost_conflict [⟨7, 3, JobStatus.processing, none⟩] 3 11 99
      ⟨7, 3, JobStatus.processing, none⟩ (by decide)⟩

end InstaNiche
